import Mathlib

/-!
Verification of the `debounce-lite` core: a shallow embedding of
`createDebouncedFunction` (the debounced-function factory), its internal
`invoke`, `settleAll` and `schedule` procedures and the `cancel`, `flush`
and `pending` controls, together with the per-call `{ signal }` options
extraction performed by the returned callable.

Modelling conventions:
  * Time is `Nat` (milliseconds, `Date.now()`); `Date.now()` is monotone, so
    every JS subtraction `a - b` that the source computes with `a >= b`
    (or wraps in `Math.max(0, _)`) coincides with truncated `Nat`
    subtraction.
  * `timerId` is modelled by the absolute time at which the armed timeout
    will fire (`now + delay`); `clearTimeout` is setting it to `none`.
  * Each call's promise (its `resolve`/`reject` pair pushed onto
    `pendingResolves`/`pendingRejects`) is modelled by a numeric waiter id;
    the two parallel arrays always have equal length and are spliced at the
    same index, so a single id list is a faithful rendering.
  * `pendingThis` (the captured `this`) carries no control flow and is not
    modelled.
  * The target function `fn` is abstract.  In the sequential trace model
    `invokeStep` merges `invoke` with the settlement of its outcome
    (`settleAll` running in the microtask right after, or synchronously in
    the `catch` branch): for targets that do not re-enter the wrapper the
    waiter list cannot change between `fn.apply` and `settleAll`, so the
    sweep at invocation time is the sweep at settlement time.  The phased
    models `invokePhased` and `flushPhased` below keep the two moments
    separate — the former also lets the target re-enter the wrapper — and
    expose the window in which a cycle is already closed but its waiters
    are still awaiting settlement, exactly as the source allows.
-/

namespace DebounceLite

/-- The `strategy` option: `"extend"` (classic debounce) or
`"fixedDeadline"` (first call freezes the deadline). -/
inductive Strategy where
  | extend
  | fixedDeadline
deriving DecidableEq, Repr

/-- The validated construction-time options of `createDebouncedFunction`:
`wait = Math.max(0, options.wait)`, `leading = !!options.leading`,
`trailing = options.trailing !== false`, `strategy = options.strategy ?? "extend"`,
`hasMaxWait = Number.isFinite(options.maxWait ?? Infinity)` and
`maxWait = hasMaxWait ? Math.max(0, options.maxWait) : Infinity`
(the infinite case is carried by `hasMaxWait = false`). -/
structure Config where
  wait : Nat
  leading : Bool
  trailing : Bool
  strategy : Strategy
  hasMaxWait : Bool
  maxWait : Nat
deriving DecidableEq, Repr

/-- The mutable closure state of one wrapper instance:
`timerId` (as the absolute firing time of the armed timeout),
`firstCallTime`, `lastInvokeTime`, `pendingArgs`, the waiter list
(`pendingResolves`/`pendingRejects`, one id per registered call) and
`fixedDeadline` (used only under the fixed-deadline strategy). -/
structure DState (α : Type) where
  timer : Option Nat
  firstCallTime : Nat
  lastInvokeTime : Nat
  pendingArgs : Option α
  waiters : List Nat
  fixedDeadline : Nat
deriving DecidableEq, Repr

/-- Closure state right after construction: no timer, no pending call,
no waiters, all timestamps zero. -/
def initState (α : Type) : DState α :=
  { timer := none, firstCallTime := 0, lastInvokeTime := 0,
    pendingArgs := none, waiters := [], fixedDeadline := 0 }

/-- How a waiter was settled: by an invocation's outcome (value or failure,
`settleAll` reached from `invoke`), by `cancel()` (`new Error("Debounce canceled")`),
or by its own abort signal firing (the spliced `reject(AbortError)`). -/
inductive SettleKind where
  | outcome
  | canceled
  | aborted
deriving DecidableEq, Repr

/-- Observable effects of the wrapper.  `invoked t a` records `fn.apply`
running at time `t` with staged arguments `a` (`none` renders the
`fn.apply(ctx, null)` call that happens when the trailing timer fires with
no staged arguments after a leading invocation).  `settled i k` records
waiter `i`'s promise being settled.  `rejectedImmediately i` records the
synchronous rejection inside the promise executor of a call whose signal
was already aborted. -/
inductive Out (α : Type) where
  | invoked (time : Nat) (args : Option α)
  | settled (id : Nat) (kind : SettleKind)
  | rejectedImmediately (id : Nat)
deriving DecidableEq, Repr

variable {α : Type}

/-- Source `invoke(now)`, fused with the settlement of its outcome:
`clearTimer()`, snapshot `pendingArgs`, null out the pending call,
set `lastInvokeTime`, run `fn.apply`, and settle every waiter present
with the outcome (`settleAll` sweeps and clears both waiter arrays).
Faithful for targets that do not re-enter the wrapper; `invokePhased`
below models the general case. -/
def invokeStep (now : Nat) (s : DState α) : DState α × List (Out α) :=
  ({ s with timer := none, pendingArgs := none, waiters := [],
            lastInvokeTime := now },
   Out.invoked now s.pendingArgs ::
     s.waiters.map (fun i => Out.settled i SettleKind.outcome))

/-- The strategy's share of the delay computed by `schedule(now)`:
`wait` under `"extend"`, `Math.max(0, fixedDeadline - now)` under
`"fixedDeadline"`. -/
def remainingWaitOf (cfg : Config) (now : Nat) (s : DState α) : Nat :=
  if cfg.strategy = Strategy.extend then cfg.wait
  else s.fixedDeadline - now

/-- The binding delay of `schedule(now)`:
`Math.min(remainingWait, remainingByMax)` where
`remainingByMax = hasMaxWait ? Math.max(0, maxWait - (now - firstCallTime)) : Infinity`. -/
def delayOf (cfg : Config) (now : Nat) (s : DState α) : Nat :=
  if cfg.hasMaxWait then
    min (remainingWaitOf cfg now s) (cfg.maxWait - (now - s.firstCallTime))
  else remainingWaitOf cfg now s

/-- Source `schedule(now)`: `clearTimer()`, compute the binding delay;
`if (delay <= 0) invoke(now)` else arm `setTimeout(.., delay)` (the armed
timeout fires at `now + delay`). -/
def schedule (cfg : Config) (now : Nat) (s : DState α) : DState α × List (Out α) :=
  if delayOf cfg now s = 0 then invokeStep now { s with timer := none }
  else ({ s with timer := some (now + delayOf cfg now s) }, [])

/-- One call of the returned `debounced` function, after the per-call
`{ signal }` options argument has been extracted (see `extractSignalBag`):
`id` is this call's waiter id, `now` is `Date.now()`, `sig` is the aborted
state of `callSignal ?? options.signal` (`none` when no signal applies).
Mirrors the source order: read `isFirstInCycle`, stage `pendingArgs`
(and `firstCallTime` / `fixedDeadline` on a first call), build the promise
(immediate rejection when the signal is already aborted, otherwise waiter
registration), then the leading-edge invoke and the trailing `schedule`. -/
def callStep (cfg : Config) (id : Nat) (now : Nat) (args : α) (sig : Option Bool)
    (s : DState α) : DState α × List (Out α) :=
  let isFirst := s.pendingArgs.isNone && s.timer.isNone
  let s1 : DState α :=
    { s with pendingArgs := some args,
             firstCallTime := if isFirst then now else s.firstCallTime,
             fixedDeadline :=
               if isFirst && decide (cfg.strategy = Strategy.fixedDeadline)
               then now + cfg.wait else s.fixedDeadline }
  let aborted := sig = some true
  let s2 := if aborted then s1 else { s1 with waiters := s1.waiters ++ [id] }
  let outs0 : List (Out α) :=
    if aborted then [Out.rejectedImmediately id] else []
  if isFirst && cfg.leading then
    let r1 := invokeStep now s2
    if cfg.trailing then
      let r2 := schedule cfg now r1.1
      (r2.1, outs0 ++ r1.2 ++ r2.2)
    else (r1.1, outs0 ++ r1.2)
  else
    if cfg.trailing then
      let r1 := schedule cfg now s2
      (r1.1, outs0 ++ r1.2)
    else (s2, outs0)

/-- Source `debounced.cancel()`: `clearTimer()`, drop the pending call,
and, when any waiter is outstanding, `settleAll(false, new Error("Debounce canceled"))`. -/
def cancelStep (s : DState α) : DState α × List (Out α) :=
  if s.waiters.isEmpty then
    ({ s with timer := none, pendingArgs := none }, [])
  else
    ({ s with timer := none, pendingArgs := none, waiters := [] },
     s.waiters.map (fun i => Out.settled i SettleKind.canceled))

/-- Source `debounced.flush()`: `if (!pendingArgs) return undefined;
return invoke(Date.now())`.  The third component is the value `flush`
reports: `none` for `undefined`, `some a` for the direct result of the
target applied to the staged arguments `a`. -/
def flushStep (now : Nat) (s : DState α) : (DState α × List (Out α)) × Option α :=
  if s.pendingArgs.isNone then ((s, []), none)
  else (invokeStep now s, s.pendingArgs)

/-- Source `debounced.pending()`: `!!pendingArgs || !!timerId`. -/
def pendingFn (s : DState α) : Bool :=
  s.pendingArgs.isSome || s.timer.isSome

/-- External events driving one wrapper instance.  `timerFire` is the armed
timeout's callback running (at its scheduled time; a cleared timeout never
runs).  `abortFire i` is the abort signal of registered call `i` firing:
the one-shot listener splices that call's `resolve`/`reject` out of the
waiter arrays, if still present, and rejects it. -/
inductive Ev (α : Type) where
  | call (id : Nat) (now : Nat) (args : α) (sig : Option Bool)
  | timerFire
  | cancel
  | flush (now : Nat)
  | abortFire (id : Nat)
deriving DecidableEq, Repr

/-- Dispatch one event to the corresponding source procedure. -/
def stepEv (cfg : Config) (e : Ev α) (s : DState α) : DState α × List (Out α) :=
  match e with
  | Ev.call id now args sig => callStep cfg id now args sig s
  | Ev.timerFire =>
      match s.timer with
      | some t => invokeStep t s
      | none => (s, [])
  | Ev.cancel => cancelStep s
  | Ev.flush now => (flushStep now s).1
  | Ev.abortFire id =>
      if id ∈ s.waiters then
        ({ s with waiters := s.waiters.erase id },
         [Out.settled id SettleKind.aborted])
      else (s, [])

/-- Run a sequence of events, accumulating the emitted effects. -/
def runTrace (cfg : Config) (s : DState α) : List (Ev α) → DState α × List (Out α)
  | [] => (s, [])
  | e :: es =>
      let r1 := stepEv cfg e s
      let r2 := runTrace cfg r1.1 es
      (r2.1, r1.2 ++ r2.2)

/-- Run the events and then, when a timeout is still armed, let it fire. -/
def completeRun (cfg : Config) (evs : List (Ev α)) : DState α × List (Out α) :=
  let r := runTrace cfg (initState α) evs
  match r.1.timer with
  | some _ =>
      let r2 := stepEv cfg Ev.timerFire r.1
      (r2.1, r.2 ++ r2.2)
  | none => r

/-- The invocations of the target recorded in an effect list, as
(time, arguments) pairs. -/
def invocationsOf (outs : List (Out α)) : List (Nat × Option α) :=
  outs.filterMap fun o =>
    match o with
    | Out.invoked t a => some (t, a)
    | _ => none

/-- The waiter ids settled in an effect list (any settlement kind). -/
def settledIdsOf (outs : List (Out α)) : List Nat :=
  outs.filterMap fun o =>
    match o with
    | Out.settled i _ => some i
    | _ => none

/-- The waiter ids a single event registers: a call whose signal is not
already aborted registers its own id; every other event registers none. -/
def registeredEv (e : Ev α) : List Nat :=
  match e with
  | Ev.call id _ _ sig => if sig = some true then [] else [id]
  | _ => []

/-- The waiter ids registered over a whole event sequence. -/
def registeredOf (evs : List (Ev α)) : List Nat :=
  evs.flatMap registeredEv

/-- JavaScript values as far as the per-call options detection inspects
them: `typeof`, `Array.isArray`, truthiness and key membership.  An object
is rendered by its key set (the detection never reads the values) and an
array by its length (the detection never reads its elements). -/
inductive JSValue where
  | vNull
  | vUndefined
  | vBool (b : Bool)
  | vNum (n : Int)
  | vStr (s : String)
  | vArr (len : Nat)
  | vObj (keys : List String)
deriving DecidableEq, Repr

/-- JavaScript truthiness of a `JSValue` (`allArgs[allArgs.length - 1] && ...`). -/
def truthy : JSValue → Bool
  | JSValue.vNull => false
  | JSValue.vUndefined => false
  | JSValue.vBool b => b
  | JSValue.vNum n => !(n == 0)
  | JSValue.vStr s => !(s == "")
  | JSValue.vArr _ => true
  | JSValue.vObj _ => true

/-- Whether `typeof v === "object"` (true for `null`, arrays and plain objects). -/
def typeofIsObject : JSValue → Bool
  | JSValue.vNull => true
  | JSValue.vArr _ => true
  | JSValue.vObj _ => true
  | _ => false

/-- `Array.isArray(v)`. -/
def isArrayV : JSValue → Bool
  | JSValue.vArr _ => true
  | _ => false

/-- `"signal" in v` (key membership, regardless of the key's value). -/
def hasSignalKey : JSValue → Bool
  | JSValue.vObj keys => keys.contains "signal"
  | _ => false

/-- The per-call options detection at the top of `debounced`: when the call
has at least one argument and the last one is truthy, of `typeof "object"`,
not an array, and has a `"signal"` key, `allArgs.pop()` removes it and its
`signal` property becomes the per-call signal; otherwise the argument list
is left intact.  Returns the staged argument list and the popped bag. -/
def extractSignalBag (allArgs : List JSValue) : List JSValue × Option JSValue :=
  match allArgs.getLast? with
  | some last =>
      if truthy last && typeofIsObject last && !isArrayV last && hasSignalKey last
      then (allArgs.dropLast, some last)
      else (allArgs, none)
  | none => (allArgs, none)

/-- A call of `debounced` given the raw positional argument list, composing
the options extraction with the call body (`sig` is the aborted state of
the effective signal `callSignal ?? options.signal`). -/
def callRaw (cfg : Config) (id : Nat) (now : Nat) (raw : List JSValue)
    (sig : Option Bool) (s : DState (List JSValue)) :
    DState (List JSValue) × List (Out (List JSValue)) :=
  callStep cfg id now (extractSignalBag raw).1 sig s

/-- Source `invoke(now)` with the two moments the source actually has kept
apart: `clearTimer()` and the nulling of the pending call happen before
`fn.apply`, but `settleAll` only runs when the outcome settles (in the
rejection/fulfilment handler, or synchronously in the `catch` branch) and
sweeps the waiter arrays as they stand at that moment.  `eff` is the effect
the target's body has on the wrapper state (re-entrant calls included);
the third component is the argument snapshot the target is applied to. -/
def invokePhased (now : Nat) (eff : DState α → DState α × List (Out α))
    (s : DState α) : DState α × List (Out α) × Option α :=
  let s1 : DState α :=
    { s with timer := none, pendingArgs := none, lastInvokeTime := now }
  let r := eff s1
  ({ r.1 with waiters := [] },
   r.2 ++ r.1.waiters.map (fun i => Out.settled i SettleKind.outcome),
   s.pendingArgs)

/-- Source `debounced.flush()` with the settlement of the invocation's
outcome kept separate, for a target that returns synchronously and does
not re-enter the wrapper: `flush` tests `pendingArgs`, and on the invoking
path `invoke` clears the timer, nulls the pending call, sets
`lastInvokeTime` and returns the target's direct result — but `settleAll`
is only queued behind `Promise.resolve(out).then(...)`, so when `flush`
returns, the invoked cycle's waiters are still in
`pendingResolves`/`pendingRejects`.  The first component is the wrapper
state at that moment, before the queued settlement has run. -/
def flushPhased (now : Nat) (s : DState α) : DState α × Option α :=
  if s.pendingArgs.isNone then (s, none)
  else ({ s with timer := none, pendingArgs := none, lastInvokeTime := now },
        s.pendingArgs)

section Lemmas

variable {α : Type}

/-- A call that joins an open cycle (a timeout is armed) under the classic
configuration (`extend`, trailing only, no `maxWait`, positive `wait`)
restages the arguments, appends its waiter and re-arms the timeout a full
`wait` after itself, emitting nothing. -/
lemma callStep_extend_join (cfg : Config) (id now : Nat) (a : α) (s : DState α)
    (hl : cfg.leading = false) (ht : cfg.trailing = true)
    (hs : cfg.strategy = Strategy.extend) (hm : cfg.hasMaxWait = false)
    (hw : 0 < cfg.wait) (hT : s.timer.isSome) :
    callStep cfg id now a none s =
      ({ s with pendingArgs := some a, waiters := s.waiters ++ [id],
                timer := some (now + cfg.wait) }, []) := by
  have hT' : s.timer.isNone = false := by
    cases h : s.timer <;> simp_all
  have hw' : cfg.wait ≠ 0 := Nat.pos_iff_ne_zero.mp hw
  simp [callStep, hT', hl, ht, schedule, delayOf, remainingWaitOf, hs, hm, hw']

/-- The first call of a cycle under the classic configuration stages the
arguments, records the cycle start, registers its waiter and arms the
timeout `wait` after itself, emitting nothing. -/
lemma callStep_extend_first (cfg : Config) (id now : Nat) (a : α) (s : DState α)
    (hl : cfg.leading = false) (ht : cfg.trailing = true)
    (hs : cfg.strategy = Strategy.extend) (hm : cfg.hasMaxWait = false)
    (hw : 0 < cfg.wait) (hp : s.pendingArgs = none) (htm : s.timer = none) :
    callStep cfg id now a none s =
      ({ s with pendingArgs := some a, waiters := s.waiters ++ [id],
                timer := some (now + cfg.wait), firstCallTime := now }, []) := by
  have hw' : cfg.wait ≠ 0 := Nat.pos_iff_ne_zero.mp hw
  simp [callStep, hp, htm, hl, ht, hs, schedule, delayOf, remainingWaitOf, hm, hw']

/-- With `wait = 0` the first call under the classic configuration invokes
synchronously: `schedule` computes a non-positive delay and calls `invoke`. -/
lemma callStep_extend_first_zero (cfg : Config) (id now : Nat) (a : α) (s : DState α)
    (hl : cfg.leading = false) (ht : cfg.trailing = true)
    (hs : cfg.strategy = Strategy.extend) (hm : cfg.hasMaxWait = false)
    (hw : cfg.wait = 0) (hp : s.pendingArgs = none) (htm : s.timer = none) :
    callStep cfg id now a none s =
      ({ s with pendingArgs := none, waiters := [], timer := none,
                firstCallTime := now, lastInvokeTime := now },
       Out.invoked now (some a) ::
         (s.waiters ++ [id]).map (fun i => Out.settled i SettleKind.outcome)) := by
  simp [callStep, hp, htm, hl, ht, hs, schedule, delayOf, remainingWaitOf, hm, hw,
        invokeStep]

/-- Running the remainder of a burst (gaps below `wait`) from a mid-burst
state emits nothing and leaves the timeout armed `wait` after the last
call, with the last call's arguments staged. -/
lemma runTrace_extend_burst (cfg : Config)
    (hl : cfg.leading = false) (ht : cfg.trailing = true)
    (hs : cfg.strategy = Strategy.extend) (hm : cfg.hasMaxWait = false)
    (hw : 0 < cfg.wait) :
    ∀ (rest : List (Nat × α)) (c : Nat × α) (s : DState α),
      s.timer = some (c.1 + cfg.wait) → s.pendingArgs = some c.2 →
      (runTrace cfg s (rest.map (fun p => Ev.call 0 p.1 p.2 none))).2 = []
      ∧ (runTrace cfg s (rest.map (fun p => Ev.call 0 p.1 p.2 none))).1.timer
          = some ((rest.getLastD c).1 + cfg.wait)
      ∧ (runTrace cfg s (rest.map (fun p => Ev.call 0 p.1 p.2 none))).1.pendingArgs
          = some (rest.getLastD c).2 := by
  intro rest
  induction rest with
  | nil => intro c s hT hp; simp [runTrace, hT, hp]
  | cons q rest' ih =>
      intro c s hT hp
      have hTsome : s.timer.isSome := by simp [hT]
      have hstep := callStep_extend_join cfg 0 q.1 q.2 s hl ht hs hm hw hTsome
      have ih' := ih q ({ s with pendingArgs := some q.2,
                                 waiters := s.waiters ++ [0],
                                 timer := some (q.1 + cfg.wait) })
        (by simp) (by simp)
      simp only [List.map_cons, runTrace, stepEv, hstep, List.getLastD_cons]
      exact ⟨by simp [ih'.1], ih'.2.1, ih'.2.2⟩

@[simp]
lemma invocationsOf_nil : invocationsOf ([] : List (Out α)) = [] := rfl

@[simp]
lemma invocationsOf_cons_invoked (t : Nat) (a : Option α) (outs : List (Out α)) :
    invocationsOf (Out.invoked t a :: outs) = (t, a) :: invocationsOf outs := rfl

@[simp]
lemma invocationsOf_cons_settled (i : Nat) (k : SettleKind) (outs : List (Out α)) :
    invocationsOf (Out.settled i k :: outs) = invocationsOf outs := rfl

@[simp]
lemma invocationsOf_cons_rejected (i : Nat) (outs : List (Out α)) :
    invocationsOf (Out.rejectedImmediately i :: outs) = invocationsOf outs := rfl

@[simp]
lemma invocationsOf_append (xs ys : List (Out α)) :
    invocationsOf (xs ++ ys) = invocationsOf xs ++ invocationsOf ys :=
  List.filterMap_append ..

@[simp]
lemma invocationsOf_settles (k : SettleKind) (l : List Nat) :
    invocationsOf (l.map fun i => (Out.settled i k : Out α)) = [] := by
  induction l with
  | nil => rfl
  | cons x xs ih => simpa using ih

@[simp]
lemma settledIdsOf_nil : settledIdsOf ([] : List (Out α)) = [] := rfl

@[simp]
lemma settledIdsOf_cons_invoked (t : Nat) (a : Option α) (outs : List (Out α)) :
    settledIdsOf (Out.invoked t a :: outs) = settledIdsOf outs := rfl

@[simp]
lemma settledIdsOf_cons_settled (i : Nat) (k : SettleKind) (outs : List (Out α)) :
    settledIdsOf (Out.settled i k :: outs) = i :: settledIdsOf outs := rfl

@[simp]
lemma settledIdsOf_cons_rejected (i : Nat) (outs : List (Out α)) :
    settledIdsOf (Out.rejectedImmediately i :: outs) = settledIdsOf outs := rfl

@[simp]
lemma settledIdsOf_append (xs ys : List (Out α)) :
    settledIdsOf (xs ++ ys) = settledIdsOf xs ++ settledIdsOf ys :=
  List.filterMap_append ..

@[simp]
lemma settledIdsOf_settles (k : SettleKind) (l : List Nat) :
    settledIdsOf (l.map fun i => (Out.settled i k : Out α)) = l := by
  induction l with
  | nil => rfl
  | cons x xs ih => simpa using ih

/-- A call on an idle wrapper with `leading = true, trailing = false`
invokes the target synchronously with its own arguments, settles every
waiter present (its own included) with that outcome, and closes the cycle
again (no staged arguments, no armed timeout, no waiters). -/
lemma callStep_leading_only (cfg : Config) (id now : Nat) (a : α) (s : DState α)
    (hld : cfg.leading = true) (htr : cfg.trailing = false)
    (hp : s.pendingArgs = none) (htm : s.timer = none) :
    callStep cfg id now a none s =
      ({ s with pendingArgs := none, timer := none, waiters := [],
                firstCallTime := now, lastInvokeTime := now,
                fixedDeadline :=
                  if cfg.strategy = Strategy.fixedDeadline
                  then now + cfg.wait else s.fixedDeadline },
       Out.invoked now (some a) ::
         (s.waiters ++ [id]).map (fun i => Out.settled i SettleKind.outcome)) := by
  simp [callStep, hp, htm, hld, htr, invokeStep]

/-- Every invocation a call emits carries the arguments that call staged
(or no arguments at all, for the degenerate zero-delay re-invoke after a
leading edge); it never carries anything else. -/
lemma callStep_invoked_args (cfg : Config) (id now : Nat) (a : α)
    (sig : Option Bool) (s : DState α) :
    ∀ t ao, Out.invoked t ao ∈ (callStep cfg id now a sig s).2 →
      ao = some a ∨ ao = none := by
  intro t ao h
  unfold callStep at h
  split_ifs at h <;> simp_all [schedule, invokeStep] <;>
    split_ifs at h <;> simp_all
  all_goals tauto

/-- After a call returns, either that call's arguments are the staged ones
or the cycle was closed synchronously and nothing is staged. -/
lemma callStep_pendingArgs (cfg : Config) (id now : Nat) (a : α)
    (sig : Option Bool) (s : DState α) :
    ((callStep cfg id now a sig s).1).pendingArgs = some a
    ∨ ((callStep cfg id now a sig s).1).pendingArgs = none := by
  unfold callStep
  split_ifs <;> simp_all [schedule, invokeStep] <;> split_ifs <;> simp_all

/-- `invoke` never writes `fixedDeadline`. -/
lemma invokeStep_fd (now : Nat) (s : DState α) :
    ((invokeStep now s).1).fixedDeadline = s.fixedDeadline := by
  simp [invokeStep]

/-- `schedule` never writes `fixedDeadline`. -/
lemma schedule_fd (cfg : Config) (now : Nat) (s : DState α) :
    ((schedule cfg now s).1).fixedDeadline = s.fixedDeadline := by
  unfold schedule
  split <;> simp [invokeStep]

/-- Reordering the first two of three concatenated blocks is a permutation. -/
lemma perm_swap_blocks (x y z : List Nat) :
    List.Perm (x ++ (y ++ z)) (y ++ (x ++ z)) := by
  have h1 : List.Perm ((x ++ y) ++ z) ((y ++ x) ++ z) :=
    (List.perm_append_comm).append_right z
  simpa [List.append_assoc] using h1

/-- `cancel` always ends in the cleared state and settles exactly the
outstanding waiters with the cancellation failure. -/
lemma cancelStep_spec (s : DState α) :
    (cancelStep s).1 = { s with timer := none, pendingArgs := none, waiters := [] }
    ∧ (cancelStep s).2
        = s.waiters.map (fun i => Out.settled i SettleKind.canceled) := by
  cases s with
  | mk tm fct lit pa ws fd =>
      unfold cancelStep
      split <;> simp_all [List.isEmpty_iff]

/-- `cancel` on a closed cycle with no waiters changes nothing and settles
nothing. -/
lemma cancelStep_noop (s : DState α) (hp : s.pendingArgs = none)
    (htm : s.timer = none) (hw : s.waiters = []) : cancelStep s = (s, []) := by
  cases s
  simp_all [cancelStep]

/-- One event's settlement bookkeeping: the ids settled by the event
together with the waiters left over are a permutation of the ids the event
registers together with the waiters already present. -/
lemma stepEv_perm (cfg : Config) (e : Ev α) (s : DState α) :
    List.Perm (settledIdsOf (stepEv cfg e s).2 ++ ((stepEv cfg e s).1).waiters)
      (registeredEv e ++ s.waiters) := by
  cases e with
  | call id now a sig =>
      simp only [stepEv, registeredEv]
      unfold callStep
      split_ifs <;> simp_all [schedule, invokeStep] <;> split_ifs <;> simp_all
  | timerFire =>
      simp only [stepEv, registeredEv]
      cases htm : s.timer <;> simp [invokeStep]
  | cancel =>
      simp only [stepEv, registeredEv]
      simp [(cancelStep_spec s).1, (cancelStep_spec s).2]
  | flush now =>
      simp only [stepEv, registeredEv]
      unfold flushStep
      split <;> simp [invokeStep]
  | abortFire id =>
      simp only [stepEv, registeredEv]
      split
      · rename_i hmem
        simpa using (List.perm_cons_erase hmem).symm
      · simp

/-- Trace-level settlement bookkeeping: over any event sequence, settled
ids plus leftover waiters are a permutation of all registered ids plus the
initially present waiters. -/
lemma runTrace_perm (cfg : Config) :
    ∀ (evs : List (Ev α)) (s : DState α),
      List.Perm
        (settledIdsOf (runTrace cfg s evs).2 ++ ((runTrace cfg s evs).1).waiters)
        (registeredOf evs ++ s.waiters) := by
  intro evs
  induction evs with
  | nil => intro s; simp [runTrace, registeredOf]
  | cons e es ih =>
      intro s
      have hstep := stepEv_perm cfg e s
      have ihs := ih (stepEv cfg e s).1
      simp only [runTrace, registeredOf, List.flatMap_cons, settledIdsOf_append,
                 List.append_assoc]
      refine ((List.Perm.append_left _ ihs).trans ?_)
      refine (perm_swap_blocks _ _ _).trans ?_
      refine (List.Perm.append_left _ hstep).trans ?_
      exact perm_swap_blocks _ _ _

end Lemmas

section Claims

variable {α : Type}

/-- C1: under strategy `extend` with `trailing = true`, `leading = false` and
no `maxWait`, a burst of calls whose consecutive gaps are strictly below
`wait` produces exactly one invocation of the target, carrying the last
call's arguments, `wait` ms after the last call (the armed timeout firing,
or — when `wait = 0` forces a singleton burst — the synchronous invoke). -/
theorem c1_extend_burst (cfg : Config) (c0 : Nat × α) (rest : List (Nat × α))
    (hl : cfg.leading = false) (ht : cfg.trailing = true)
    (hs : cfg.strategy = Strategy.extend) (hm : cfg.hasMaxWait = false)
    (hchain : List.Chain (fun p q => p.1 ≤ q.1 ∧ q.1 < p.1 + cfg.wait) c0 rest) :
    invocationsOf
        (completeRun cfg ((c0 :: rest).map (fun p => Ev.call 0 p.1 p.2 none))).2
      = [((rest.getLastD c0).1 + cfg.wait, some (rest.getLastD c0).2)] := by
  rcases Nat.eq_zero_or_pos cfg.wait with hw | hw
  · have hrest : rest = [] := by
      cases rest with
      | nil => rfl
      | cons q _ =>
          rcases List.chain_cons.mp hchain with ⟨⟨h1, h2⟩, _⟩
          omega
    subst hrest
    have hfirst := callStep_extend_first_zero cfg 0 c0.1 c0.2 (initState α)
      hl ht hs hm hw rfl rfl
    simp only [List.map_cons, List.map_nil, completeRun, runTrace, stepEv, hfirst]
    simp [invocationsOf, initState, hw]
  · have hfirst' : callStep cfg 0 c0.1 c0.2 none (initState α) =
        ({ timer := some (c0.1 + cfg.wait), firstCallTime := c0.1,
           lastInvokeTime := 0, pendingArgs := some c0.2, waiters := [0],
           fixedDeadline := 0 }, []) := by
      rw [callStep_extend_first cfg 0 c0.1 c0.2 (initState α) hl ht hs hm hw rfl rfl]
      simp [initState]
    have hburst := runTrace_extend_burst cfg hl ht hs hm hw rest c0
      ({ timer := some (c0.1 + cfg.wait), firstCallTime := c0.1,
         lastInvokeTime := 0, pendingArgs := some c0.2, waiters := [0],
         fixedDeadline := 0 }) rfl rfl
    rcases hburst with ⟨houts, htimer, hargs⟩
    simp only [List.map_cons, completeRun, runTrace, stepEv, hfirst']
    simp [houts, htimer, hargs, invokeStep, invocationsOf]

/-- Yields C1 at a concrete burst: calls at times 0, 4, 8 with `wait = 10`
produce the single invocation `(18, some 7)`. -/
theorem c1_extend_burst_witness :
    invocationsOf
        (completeRun (⟨10, false, true, Strategy.extend, false, 0⟩ : Config)
          ((((0, 5) : Nat × Nat) :: [(4, 6), (8, 7)]).map
            (fun p => Ev.call 0 p.1 p.2 none))).2
      = [(18, some 7)] := by
  have h := c1_extend_burst (⟨10, false, true, Strategy.extend, false, 0⟩ : Config)
    ((0, 5) : Nat × Nat) [(4, 6), (8, 7)] rfl rfl rfl rfl
    (by norm_num [List.chain_cons])
  simpa using h

/-- C2: under the fixed-deadline strategy the deadline is written exactly
once per cycle — a call joining an open cycle (arguments staged or timeout
armed) leaves `fixedDeadline` untouched, while a cycle-opening call sets it
to its own time plus `wait` — and in the concrete burst (wait 80, calls at
0 and 40) the second call does not push the invocation past t = 80, which
fires with the latest arguments. -/
theorem c2_fixedDeadline_once (cfg : Config) (id now : Nat) (a : α)
    (sig : Option Bool) (s : DState α)
    (hstrat : cfg.strategy = Strategy.fixedDeadline) :
    ((s.pendingArgs.isSome || s.timer.isSome) = true →
        ((callStep cfg id now a sig s).1).fixedDeadline = s.fixedDeadline)
    ∧ (s.pendingArgs = none → s.timer = none →
        ((callStep cfg id now a sig s).1).fixedDeadline = now + cfg.wait)
    ∧ invocationsOf
        (completeRun (⟨80, false, true, Strategy.fixedDeadline, false, 0⟩ : Config)
          [Ev.call 0 0 (1 : Nat) none, Ev.call 1 40 2 none]).2 = [(80, some 2)] := by
  refine ⟨fun hopen => ?_, fun hp htm => ?_, by decide⟩
  · have h1 : (s.pendingArgs.isNone && s.timer.isNone) = false := by
      cases hp : s.pendingArgs <;> cases htm : s.timer <;> simp_all
    simp only [callStep, h1, Bool.false_and]
    split_ifs <;> simp_all [schedule_fd, invokeStep_fd]
  · simp only [callStep, hp, htm, Option.isNone_none, Bool.and_self, hstrat]
    split_ifs <;> simp_all [schedule_fd, invokeStep_fd]

/-- Yields C2 at concrete inputs: a call at t = 40 joining the open cycle
leaves the frozen deadline 80 unchanged, and a cycle-opening call at t = 0
with wait 80 sets it to 80. -/
theorem c2_fixedDeadline_once_witness :
    ((callStep (⟨80, false, true, Strategy.fixedDeadline, false, 0⟩ : Config) 1 40
        (2 : Nat) none
        (⟨some 80, 0, 0, some 1, [0], 80⟩ : DState Nat)).1).fixedDeadline
      = (⟨some 80, 0, 0, some 1, [0], 80⟩ : DState Nat).fixedDeadline
    ∧ ((callStep (⟨80, false, true, Strategy.fixedDeadline, false, 0⟩ : Config) 0 0
        (1 : Nat) none (initState Nat)).1).fixedDeadline = 0 + 80 :=
  ⟨(c2_fixedDeadline_once _ 1 40 2 none _ rfl).1 (by decide),
   (c2_fixedDeadline_once _ 0 0 1 none (initState Nat) rfl).2.1 rfl rfl⟩

/-- C3: with a finite `maxWait`, the delay `schedule` arms is the minimum of
the strategy's remaining wait and the remaining max-wait budget
(`maxWait` minus the time elapsed since the cycle's first call); when that
minimum is zero the target is invoked synchronously and no timeout is
armed, otherwise a timeout is armed that minimum after now.  Consequently,
with `maxWait = 2000` and `wait = 300`, calls every 100 ms from t = 0 force
the single invocation at t = 2000 with the latest arguments. -/
theorem c3_maxWait_cap (cfg : Config) (now : Nat) (s : DState α)
    (hm : cfg.hasMaxWait = true) :
    delayOf cfg now s
        = min (remainingWaitOf cfg now s) (cfg.maxWait - (now - s.firstCallTime))
    ∧ (delayOf cfg now s = 0 →
        invocationsOf (schedule cfg now s).2 = [(now, s.pendingArgs)]
        ∧ ((schedule cfg now s).1).timer = none)
    ∧ (0 < delayOf cfg now s →
        ((schedule cfg now s).1).timer = some (now + delayOf cfg now s)
        ∧ invocationsOf (schedule cfg now s).2 = [])
    ∧ invocationsOf
        (runTrace (⟨300, false, true, Strategy.extend, true, 2000⟩ : Config)
          (initState Nat)
          ((List.range 21).map (fun k => Ev.call k (100 * k) k none))).2
      = [(2000, some 20)] := by
  refine ⟨by simp [delayOf, hm], fun h0 => ?_, fun hpos => ?_, by decide⟩
  · simp [schedule, h0, invokeStep, invocationsOf]
  · have hne : delayOf cfg now s ≠ 0 := Nat.pos_iff_ne_zero.mp hpos
    simp [schedule, hne, invocationsOf]

/-- Yields C3 at a concrete input: at t = 1800, 1800 ms into the cycle with
`wait = 300` and `maxWait = 2000`, the armed delay is the remaining budget
200, so the timeout fires at t = 2000. -/
theorem c3_maxWait_cap_witness :
    ((schedule (⟨300, false, true, Strategy.extend, true, 2000⟩ : Config) 1800
        (⟨some 2000, 0, 0, some 5, [0], 0⟩ : DState Nat)).1).timer
      = some (1800 + delayOf (⟨300, false, true, Strategy.extend, true, 2000⟩ : Config)
          1800 (⟨some 2000, 0, 0, some 5, [0], 0⟩ : DState Nat))
    ∧ invocationsOf
        (schedule (⟨300, false, true, Strategy.extend, true, 2000⟩ : Config) 1800
          (⟨some 2000, 0, 0, some 5, [0], 0⟩ : DState Nat)).2 = [] :=
  (c3_maxWait_cap _ 1800 _ rfl).2.2.1 (by decide)

/-- C4 is refuted: the invoke path clears the pending arguments before the
target runs, but it does not snapshot the waiter list then — `settleAll`
sweeps the waiter arrays only when the outcome settles.  Concretely, from a
cycle whose sole waiter is 0, an invocation whose target re-enters the
wrapper (a call registering waiter 1) settles waiter 1 with the earlier
invocation's outcome, although 1 was not in the pre-invocation waiter
snapshot, contradicting the claim that exactly the snapshotted waiters are
settled. -/
theorem c4_snapshot_counterexample :
    settledIdsOf (invokePhased 100
        (fun st => callStep (⟨50, false, true, Strategy.extend, false, 0⟩ : Config)
          1 100 (2 : Nat) none st)
        (⟨some 100, 0, 0, some 1, [0], 0⟩ : DState Nat)).2.1 = [0, 1]
    ∧ 1 ∉ (⟨some 100, 0, 0, some 1, [0], 0⟩ : DState Nat).waiters := by
  decide

/-- C4 as amended: each invocation snapshots the pending arguments and
clears the pending call (and the armed timer) before the target runs, and
when the outcome settles it settles every waiter present at settlement time
— including any registered by a re-entrant call in between — and empties
the waiter list. -/
theorem c4_invoke_settlement (now : Nat)
    (eff : DState α → DState α × List (Out α)) (s : DState α) :
    (invokePhased now eff s).2.2 = s.pendingArgs
    ∧ ((invokePhased now eff s).1).waiters = []
    ∧ (∀ i, i ∈ ((eff { s with timer := none, pendingArgs := none,
                               lastInvokeTime := now }).1).waiters →
        Out.settled i SettleKind.outcome ∈ (invokePhased now eff s).2.1) := by
  refine ⟨rfl, rfl, fun i hi => ?_⟩
  simp only [invokePhased, List.mem_append, List.mem_map]
  exact Or.inr ⟨i, hi, rfl⟩

/-- Yields C4's amended statement at a concrete input: the re-entrant
call's waiter 1 is among those settled by the earlier invocation. -/
theorem c4_invoke_settlement_witness :
    Out.settled 1 SettleKind.outcome ∈
      (invokePhased 100
        (fun st => callStep (⟨50, false, true, Strategy.extend, false, 0⟩ : Config)
          1 100 (2 : Nat) none st)
        (⟨some 100, 0, 0, some 1, [0], 0⟩ : DState Nat)).2.1 :=
  (c4_invoke_settlement 100 _ _).2.2 1 (by decide)

/-- C7 is refuted: after a single call under `leading = true, trailing = true`
the cycle is still open in the spec's sense (`pending()` is true: the
trailing timeout is armed), yet `flush()` — which tests `pendingArgs`, not
the open cycle — returns no value, performs no invocation and leaves the
state untouched. -/
theorem c7_flush_counterexample :
    pendingFn ((runTrace (⟨50, true, true, Strategy.extend, false, 0⟩ : Config)
        (initState Nat) [Ev.call 0 0 7 none]).1) = true
    ∧ (flushStep 10 ((runTrace (⟨50, true, true, Strategy.extend, false, 0⟩ : Config)
        (initState Nat) [Ev.call 0 0 7 none]).1)).2 = none
    ∧ (flushStep 10 ((runTrace (⟨50, true, true, Strategy.extend, false, 0⟩ : Config)
        (initState Nat) [Ev.call 0 0 7 none]).1)).1
      = (((runTrace (⟨50, true, true, Strategy.extend, false, 0⟩ : Config)
        (initState Nat) [Ev.call 0 0 7 none]).1), []) := by
  decide

/-- C7 as amended: `flush()` is a no-op reporting no value exactly when no
arguments are staged (even if a timeout is still armed, as after a leading
invocation with trailing enabled); when arguments are staged it invokes the
target immediately with them, reports the target's direct result (rendered
by the argument snapshot it is computed from), and settles all current
waiters through the normal invocation path. -/
theorem c7_flush_behavior (now : Nat) (s : DState α) :
    (s.pendingArgs = none → flushStep now s = ((s, []), none))
    ∧ (∀ a, s.pendingArgs = some a →
        flushStep now s = (invokeStep now s, some a)
        ∧ invocationsOf (invokeStep now s).2 = [(now, some a)]
        ∧ settledIdsOf (invokeStep now s).2 = s.waiters
        ∧ ((invokeStep now s).1).pendingArgs = none
        ∧ ((invokeStep now s).1).timer = none) := by
  constructor
  · intro hp
    simp [flushStep, hp]
  · intro a hp
    refine ⟨by simp [flushStep, hp], ?_, ?_, by simp [invokeStep], by simp [invokeStep]⟩
    · simp [invokeStep, hp]
    · simp [invokeStep]

/-- Yields C7's amended statement at concrete inputs: flushing a staged
cycle (arguments 9, waiter 3) invokes at once and settles waiter 3, while
flushing with nothing staged reports no value. -/
theorem c7_flush_behavior_witness :
    flushStep 25 (⟨some 60, 5, 0, some 9, [3], 0⟩ : DState Nat)
      = (invokeStep 25 (⟨some 60, 5, 0, some 9, [3], 0⟩ : DState Nat), some 9)
    ∧ flushStep 25 (initState Nat) = ((initState Nat, []), none) :=
  ⟨((c7_flush_behavior 25 (⟨some 60, 5, 0, some 9, [3], 0⟩ : DState Nat)).2 9 rfl).1,
   (c7_flush_behavior 25 (initState Nat)).1 rfl⟩

/-- C8 is refuted: a call whose signal is already aborted is rejected
immediately and its waiter is never registered, but — contrary to the claim
that it "never enters a cycle" — the call still stages its arguments and
still arms the trailing timeout (here: arguments 7 staged, timeout armed at
t = 60 from an idle state). -/
theorem c8_aborted_counterexample :
    ((callStep (⟨50, false, true, Strategy.extend, false, 0⟩ : Config) 0 10 (7 : Nat)
        (some true) (initState Nat)).1).pendingArgs = some 7
    ∧ ((callStep (⟨50, false, true, Strategy.extend, false, 0⟩ : Config) 0 10 (7 : Nat)
        (some true) (initState Nat)).1).timer = some 60
    ∧ (callStep (⟨50, false, true, Strategy.extend, false, 0⟩ : Config) 0 10 (7 : Nat)
        (some true) (initState Nat)).2 = [Out.rejectedImmediately 0] := by
  decide

/-- C8 as amended: a call made with an already-aborted signal has its
promise rejected immediately and synchronously and its waiter is never
registered (so no later settlement can reach it), but the call otherwise
proceeds like any other: it stages its arguments, opens or joins the cycle,
and — in the default trailing configuration from an idle state — arms the
trailing timeout as usual. -/
theorem c8_aborted_call (cfg : Config) (id now : Nat) (a : α) (s : DState α) :
    Out.rejectedImmediately id ∈ (callStep cfg id now a (some true) s).2
    ∧ (id ∉ s.waiters → id ∉ ((callStep cfg id now a (some true) s).1).waiters)
    ∧ (id ∉ s.waiters →
        ∀ k, Out.settled id k ∉ (callStep cfg id now a (some true) s).2)
    ∧ (cfg.leading = false → cfg.trailing = true →
       cfg.strategy = Strategy.extend → cfg.hasMaxWait = false → 0 < cfg.wait →
       s.pendingArgs = none → s.timer = none →
       callStep cfg id now a (some true) s =
         ({ s with pendingArgs := some a, timer := some (now + cfg.wait),
                   firstCallTime := now }, [Out.rejectedImmediately id])) := by
  refine ⟨?_, fun hid => ?_, fun hid k => ?_, fun hl ht hs hm hw hp htm => ?_⟩
  · unfold callStep
    split_ifs <;> simp [schedule, invokeStep] <;> split_ifs <;> simp
  · unfold callStep
    split_ifs <;> simp_all [schedule, invokeStep] <;> split_ifs <;> simp_all
  · unfold callStep
    split_ifs <;> simp_all [schedule, invokeStep] <;> split_ifs <;> simp_all
    all_goals intro x hx hxe
    all_goals exact (hid (hxe ▸ hx)).elim
  · have hw' : cfg.wait ≠ 0 := Nat.pos_iff_ne_zero.mp hw
    simp [callStep, hp, htm, hl, ht, hs, schedule, delayOf, remainingWaitOf, hm, hw']

/-- Yields C8's amended statement at a concrete input: the aborted call at
t = 10 on an idle wrapper is rejected immediately, registers nothing, and
still stages its arguments and arms the timeout at t = 60. -/
theorem c8_aborted_call_witness :
    callStep (⟨50, false, true, Strategy.extend, false, 0⟩ : Config) 0 10 (7 : Nat)
        (some true) (initState Nat)
      = (⟨some 60, 10, 0, some 7, [], 0⟩, [Out.rejectedImmediately 0]) :=
  (c8_aborted_call (⟨50, false, true, Strategy.extend, false, 0⟩ : Config) 0 10 7
    (initState Nat)).2.2.2 rfl rfl rfl rfl (by decide) rfl rfl

/-- C9: with `leading = true` and `trailing = false`, every cycle consists
of exactly its first call, which invokes the target immediately with its
own arguments and closes the cycle synchronously (nothing staged, no
timeout armed); hence no call ever joins an open cycle and no cycle
produces a further invocation beyond its leading one — the invocation list
of any call sequence is exactly one immediate invocation per call, each
with that call's own arguments. -/
theorem c9_leading_edge (cfg : Config) (calls : List (Nat × Nat × α))
    (hld : cfg.leading = true) (htr : cfg.trailing = false) :
    invocationsOf (runTrace cfg (initState α)
        (calls.map (fun c => Ev.call c.1 c.2.1 c.2.2 none))).2
      = calls.map (fun c => (c.2.1, some c.2.2))
    ∧ ((runTrace cfg (initState α)
        (calls.map (fun c => Ev.call c.1 c.2.1 c.2.2 none))).1).pendingArgs = none
    ∧ ((runTrace cfg (initState α)
        (calls.map (fun c => Ev.call c.1 c.2.1 c.2.2 none))).1).timer = none := by
  suffices h : ∀ (cs : List (Nat × Nat × α)) (s : DState α),
      s.pendingArgs = none → s.timer = none → s.waiters = [] →
      invocationsOf (runTrace cfg s (cs.map (fun c => Ev.call c.1 c.2.1 c.2.2 none))).2
        = cs.map (fun c => (c.2.1, some c.2.2))
      ∧ ((runTrace cfg s (cs.map (fun c => Ev.call c.1 c.2.1 c.2.2 none))).1).pendingArgs = none
      ∧ ((runTrace cfg s (cs.map (fun c => Ev.call c.1 c.2.1 c.2.2 none))).1).timer = none
      ∧ ((runTrace cfg s (cs.map (fun c => Ev.call c.1 c.2.1 c.2.2 none))).1).waiters = [] by
    have h' := h calls (initState α) rfl rfl rfl
    exact ⟨h'.1, h'.2.1, h'.2.2.1⟩
  intro cs
  induction cs with
  | nil =>
      intro s hp htm hw
      simp [runTrace, hp, htm, hw]
  | cons c cs' ih =>
      intro s hp htm hw
      have hstep := callStep_leading_only cfg c.1 c.2.1 c.2.2 s hld htr hp htm
      have ih' := ih ({ s with pendingArgs := none, timer := none, waiters := [],
                               firstCallTime := c.2.1, lastInvokeTime := c.2.1,
                               fixedDeadline :=
                                 if cfg.strategy = Strategy.fixedDeadline
                                 then c.2.1 + cfg.wait else s.fixedDeadline })
        rfl rfl rfl
      simp only [List.map_cons, runTrace, stepEv, hstep]
      refine ⟨?_, ih'.2.1, ih'.2.2.1, ih'.2.2.2⟩
      simp [hw, ih'.1]

/-- Yields C9 at a concrete call sequence: three rapid calls each invoke
immediately with their own arguments. -/
theorem c9_leading_edge_witness :
    invocationsOf (runTrace (⟨50, true, false, Strategy.extend, false, 0⟩ : Config)
        (initState Nat)
        ([((0, 0, 3) : Nat × Nat × Nat), (1, 5, 4), (2, 9, 5)].map
          (fun c => Ev.call c.1 c.2.1 c.2.2 none))).2
      = [(0, some 3), (5, some 4), (9, some 5)] := by
  have h := (c9_leading_edge (⟨50, true, false, Strategy.extend, false, 0⟩ : Config)
    [((0, 0, 3) : Nat × Nat × Nat), (1, 5, 4), (2, 9, 5)] rfl rfl).1
  simpa using h

/-- C10: when the last positional argument of a call is a non-null,
non-array object whose key set contains `"signal"` (whatever the key's
value, and whether or not the caller meant it as a real argument), the
options detection pops it before the arguments are staged: the staged
argument list is exactly the preceding arguments, every invocation the
call emits carries those preceding arguments (or none), and the popped
object itself is what becomes the per-call options bag — the target never
receives it. -/
theorem c10_signal_bag_popped (cfg : Config) (id now : Nat)
    (pre : List JSValue) (keys : List String) (sig : Option Bool)
    (s : DState (List JSValue)) (hkey : "signal" ∈ keys) :
    extractSignalBag (pre ++ [JSValue.vObj keys]) = (pre, some (JSValue.vObj keys))
    ∧ (∀ t ao, Out.invoked t ao ∈
          (callRaw cfg id now (pre ++ [JSValue.vObj keys]) sig s).2 →
        ao = some pre ∨ ao = none)
    ∧ (((callRaw cfg id now (pre ++ [JSValue.vObj keys]) sig s).1).pendingArgs = some pre
       ∨ ((callRaw cfg id now (pre ++ [JSValue.vObj keys]) sig s).1).pendingArgs = none) := by
  have hext : extractSignalBag (pre ++ [JSValue.vObj keys])
      = (pre, some (JSValue.vObj keys)) := by
    simp [extractSignalBag, List.getLast?_concat, List.dropLast_concat,
          truthy, typeofIsObject, isArrayV, hasSignalKey, hkey]
  refine ⟨hext, fun t ao h => ?_, ?_⟩
  · rw [callRaw, hext] at h
    exact callStep_invoked_args cfg id now pre sig s t ao h
  · rw [callRaw, hext]
    exact callStep_pendingArgs cfg id now pre sig s

/-- Yields C10 at a concrete input: the call `debounced(1, { signal })`
stages only `[1]`; the options object is popped. -/
theorem c10_signal_bag_popped_witness :
    extractSignalBag [JSValue.vNum 1, JSValue.vObj ["signal"]]
      = ([JSValue.vNum 1], some (JSValue.vObj ["signal"]))
    ∧ (((callRaw (⟨50, false, true, Strategy.extend, false, 0⟩ : Config) 0 0
          [JSValue.vNum 1, JSValue.vObj ["signal"]] none
          (initState (List JSValue))).1).pendingArgs = some [JSValue.vNum 1]
       ∨ ((callRaw (⟨50, false, true, Strategy.extend, false, 0⟩ : Config) 0 0
          [JSValue.vNum 1, JSValue.vObj ["signal"]] none
          (initState (List JSValue))).1).pendingArgs = none) := by
  have h := c10_signal_bag_popped (⟨50, false, true, Strategy.extend, false, 0⟩ : Config)
    0 0 [JSValue.vNum 1] ["signal"] none (initState (List JSValue)) (by decide)
  exact ⟨h.1, h.2.2⟩

/-- C5 is refuted in its "no waiter is left permanently unsettled" part:
with both edges disabled (`leading = false, trailing = false`) a call
registers its waiter, stages its arguments, and arms nothing — after the
call (and even after a second call a billion milliseconds later) no timer
exists, nothing has been invoked and no waiter has been settled, so
without an explicit `cancel`/`flush` the waiters hang forever. -/
theorem c5_unsettled_counterexample :
    ((runTrace (⟨50, false, false, Strategy.extend, false, 0⟩ : Config)
        (initState Nat)
        [Ev.call 0 0 3 none, Ev.call 1 1000000000 4 none]).1).waiters = [0, 1]
    ∧ ((runTrace (⟨50, false, false, Strategy.extend, false, 0⟩ : Config)
        (initState Nat)
        [Ev.call 0 0 3 none, Ev.call 1 1000000000 4 none]).1).timer = none
    ∧ settledIdsOf (runTrace (⟨50, false, false, Strategy.extend, false, 0⟩ : Config)
        (initState Nat)
        [Ev.call 0 0 3 none, Ev.call 1 1000000000 4 none]).2 = []
    ∧ invocationsOf (runTrace (⟨50, false, false, Strategy.extend, false, 0⟩ : Config)
        (initState Nat)
        [Ev.call 0 0 3 none, Ev.call 1 1000000000 4 none]).2 = [] := by
  decide

/-- C5 as amended: settlement is conservative and at most once — over any
event sequence, the ids settled (by invocation outcome, cancellation or
abort) together with the waiters still pending are a permutation of all
the ids ever registered, so every registered waiter is settled at most
once and an unsettled waiter is always still in the pending list; a waiter
can therefore only hang forever when nothing (trailing timer, leading
invoke, `cancel`, `flush` or its abort signal) ever drains the list, as
with both edges disabled. -/
theorem c5_waiter_conservation (cfg : Config) (evs : List (Ev α)) :
    List.Perm
      (settledIdsOf (runTrace cfg (initState α) evs).2
        ++ ((runTrace cfg (initState α) evs).1).waiters)
      (registeredOf evs)
    ∧ ((registeredOf evs).Nodup →
        (settledIdsOf (runTrace cfg (initState α) evs).2).Nodup) := by
  have h := runTrace_perm cfg evs (initState α)
  have h' : List.Perm
      (settledIdsOf (runTrace cfg (initState α) evs).2
        ++ ((runTrace cfg (initState α) evs).1).waiters)
      (registeredOf evs) := by simpa [initState] using h
  exact ⟨h', fun hnd => ((h'.nodup_iff).mpr hnd).of_append_left⟩

/-- Yields C5's amended statement at a concrete trace: one call then the
timer firing settles waiter 0 exactly once. -/
theorem c5_waiter_conservation_witness :
    (settledIdsOf (runTrace (⟨50, false, true, Strategy.extend, false, 0⟩ : Config)
        (initState Nat) [Ev.call 0 0 1 none, Ev.timerFire]).2).Nodup :=
  (c5_waiter_conservation (⟨50, false, true, Strategy.extend, false, 0⟩ : Config)
    [Ev.call 0 0 1 none, Ev.timerFire]).2 (by decide)

/-- C6 is refuted in its no-op part: between an invocation and the
asynchronous settlement of its outcome, the invoked cycle's waiters are
still in `pendingResolves`/`pendingRejects` although the cycle is closed
(the invocation already nulled `pendingArgs` and cleared the timer, so
`pending()` is false).  Concretely, a call staging arguments 1, then
`flush()`, then `cancel()` in the same synchronous turn reaches `cancel`
in that window: no cycle is open (timer and staged arguments are gone),
yet `cancel` finds a nonempty `pendingRejects`, sweeps it, and rejects
waiter 0 with the cancellation failure — not a no-op. -/
theorem c6_cancel_window_counterexample :
    pendingFn ((flushPhased 10
        ((runTrace (⟨50, false, true, Strategy.extend, false, 0⟩ : Config)
          (initState Nat) [Ev.call 0 0 1 none]).1)).1) = false
    ∧ (cancelStep ((flushPhased 10
        ((runTrace (⟨50, false, true, Strategy.extend, false, 0⟩ : Config)
          (initState Nat) [Ev.call 0 0 1 none]).1)).1)).2
        = [Out.settled 0 SettleKind.canceled]
    ∧ cancelStep ((flushPhased 10
        ((runTrace (⟨50, false, true, Strategy.extend, false, 0⟩ : Config)
          (initState Nat) [Ev.call 0 0 1 none]).1)).1)
      ≠ (((flushPhased 10
        ((runTrace (⟨50, false, true, Strategy.extend, false, 0⟩ : Config)
          (initState Nat) [Ev.call 0 0 1 none]).1)).1), []) := by
  decide

/-- C6 as amended: from any state, `cancel()` clears the timer and drops
the staged arguments, emits no invocation, settles exactly the outstanding
waiters with the cancellation failure, and leaves `pending()` false
immediately after; with no open cycle it is a no-op only when no waiters
are still listed.  In the window after an invocation (such as a `flush`)
whose outcome has not yet settled, the cycle is closed (`pending()` is
false) but the invoked cycle's waiters are still listed, and `cancel()`
then rejects them with the cancellation failure instead of being a
no-op. -/
theorem c6_cancel_behavior (s : DState α) :
    ((cancelStep s).1).timer = none
    ∧ ((cancelStep s).1).pendingArgs = none
    ∧ ((cancelStep s).1).waiters = []
    ∧ pendingFn (cancelStep s).1 = false
    ∧ (cancelStep s).2 = s.waiters.map (fun i => Out.settled i SettleKind.canceled)
    ∧ invocationsOf (cancelStep s).2 = []
    ∧ (pendingFn s = false → s.waiters = [] → cancelStep s = (s, []))
    ∧ (∀ now : Nat, s.pendingArgs.isSome = true →
        pendingFn ((flushPhased now s).1) = false
        ∧ (cancelStep ((flushPhased now s).1)).2
            = s.waiters.map (fun i => Out.settled i SettleKind.canceled)) := by
  have hspec := cancelStep_spec s
  refine ⟨by simp [hspec.1], by simp [hspec.1], by simp [hspec.1],
          by simp [pendingFn, hspec.1], hspec.2, by simp [hspec.2],
          fun hpend hw => ?_, fun now hp => ?_⟩
  · have h1 : s.pendingArgs = none := by
      simp [pendingFn] at hpend
      exact hpend.1
    have h2 : s.timer = none := by
      simp [pendingFn] at hpend
      exact hpend.2
    exact cancelStep_noop s h1 h2 hw
  · have hp' : s.pendingArgs.isNone = false := by
      cases h : s.pendingArgs <;> simp_all
    constructor
    · simp [flushPhased, hp', pendingFn]
    · simp [flushPhased, hp', (cancelStep_spec _).2]

/-- Yields C6's amended statement at concrete inputs: in the post-flush
window of a cycle that had staged arguments and waiter 0 outstanding, the
cycle is closed yet `cancel` settles waiter 0 with the cancellation
failure; and on the idle wrapper `cancel` is a no-op. -/
theorem c6_cancel_behavior_witness :
    (pendingFn ((flushPhased 10 (⟨some 50, 0, 0, some 1, [0], 0⟩ : DState Nat)).1)
        = false
      ∧ (cancelStep ((flushPhased 10
          (⟨some 50, 0, 0, some 1, [0], 0⟩ : DState Nat)).1)).2
          = [Out.settled 0 SettleKind.canceled])
    ∧ cancelStep (initState Nat) = (initState Nat, []) :=
  ⟨by
     have h := (c6_cancel_behavior
       (⟨some 50, 0, 0, some 1, [0], 0⟩ : DState Nat)).2.2.2.2.2.2.2 10 rfl
     simpa using h,
   (c6_cancel_behavior (initState Nat)).2.2.2.2.2.2.1 rfl rfl⟩

end Claims

end DebounceLite
